import Mathlib

/-!
Verification development for the `pose_estimator` repository.

The repository holds two standalone Python scripts:

* `mediapipe_pose_estimator.py` — a batch image processor: it discovers
  image files in an input directory, runs an external pose estimator on
  each, writes a rendered `pose_<name>` image and (when a pose was
  detected) a `landmarks_<stem>.txt` text dump into the output directory.
* `openpose_pose_estimator.py` — a batch invoker: it probes a fixed list
  of candidate paths for an OpenPose executable and invokes it once as a
  subprocess over the whole input directory.

The development shallowly embeds the orchestration logic of both scripts.
External collaborators (the MediaPipe estimator, the drawing routines,
OpenCV image decoding, the filesystem, subprocesses) are modelled as
oracle parameters, and each script run is reflected as the list of
observable events (directory creation, file writes, log lines) it
produces together with its exit status.  Text files are modelled as
lists of lines; numeric landmark values are modelled as rationals, and
Python `:.4f` formatting as correctly rounded (half-to-even) fixed-point
rendering.
-/

/-! ## Decimal rendering and parsing helpers -/

/-- The decimal digit character for `d % 10` (code point `48 + d % 10`). -/
def decDigit (d : Nat) : Char :=
  match d % 10 with
  | 0 => '0'
  | 1 => '1'
  | 2 => '2'
  | 3 => '3'
  | 4 => '4'
  | 5 => '5'
  | 6 => '6'
  | 7 => '7'
  | 8 => '8'
  | _ => '9'

/-- Digits of `n` in base 10, most significant first; empty for `0`.
The first argument is recursion fuel (any amount `≥ n` is enough);
structural recursion on the fuel keeps the function kernel-reducible. -/
def natToDecAux : Nat → Nat → List Char
  | _, 0 => []
  | 0, _ + 1 => []
  | f + 1, n + 1 => natToDecAux f ((n + 1) / 10) ++ [decDigit ((n + 1) % 10)]

/-- Decimal rendering of a natural number (the embedding of Python's
`str` on a non-negative integer). -/
def natToDec (n : Nat) : String :=
  if n = 0 then "0" else String.mk (natToDecAux n n)

/-- Numeric value of a digit character. -/
def digitVal (c : Char) : Nat := c.toNat - 48

/-- Is `c` one of the characters `0`–`9`? -/
def isDecDigit (c : Char) : Bool := 48 ≤ c.toNat && c.toNat ≤ 57

/-- Value of a most-significant-first digit string. -/
def fromDigits (cs : List Char) : Nat :=
  cs.foldl (fun a c => a * 10 + digitVal c) 0

/-- Round a rational to the nearest integer, ties to the even integer
(the rounding used by Python fixed-point formatting). -/
def roundHalfEven (x : ℚ) : ℤ :=
  if x - ⌊x⌋ < 1/2 then ⌊x⌋
  else if 1/2 < x - ⌊x⌋ then ⌊x⌋ + 1
  else if ⌊x⌋ % 2 = 0 then ⌊x⌋ else ⌊x⌋ + 1

/-- `q` scaled by `10^4` and rounded half-to-even: the integer whose
digits appear in the `:.4f` rendering of `q`.  Written with integer
division so that it evaluates by kernel reduction; `scaled4_eq` below
proves it equal to `roundHalfEven (q * 10000)`. -/
def scaled4 (q : ℚ) : ℤ :=
  if 2 * (q.num * 10000 % q.den) < (q.den : ℤ) then q.num * 10000 / q.den
  else if (q.den : ℤ) < 2 * (q.num * 10000 % q.den) then q.num * 10000 / q.den + 1
  else if (q.num * 10000 / q.den) % 2 = 0 then q.num * 10000 / q.den
  else q.num * 10000 / q.den + 1

/-- The four fractional digit characters of a `:.4f` rendering,
most significant first (`m` is the scaled magnitude). -/
def fracDigits4 (m : Nat) : List Char :=
  [decDigit (m / 1000), decDigit (m / 100), decDigit (m / 10), decDigit m]

/-- The embedding of Python `f"{q:.4f}"`: optional sign, decimal integer
part, a dot, and exactly four fractional digits, rounded half-to-even. -/
def format4 (q : ℚ) : String :=
  let m := (scaled4 q).natAbs
  (if q < 0 then "-" else "") ++ natToDec (m / 10000) ++ "." ++
    String.mk (fracDigits4 (m % 10000))

/-- Drop an expected literal character sequence from the front of a
character list, or fail. -/
def dropLit : List Char → List Char → Option (List Char)
  | [], s => some s
  | _ :: _, [] => none
  | p :: ps, c :: cs => if p = c then dropLit ps cs else none

/-- Parse an unsigned fixed-point numeral with exactly four fractional
digits into a rational. -/
def parseUFix4 (cs : List Char) : Option ℚ :=
  let ip := cs.takeWhile (· ≠ '.')
  match cs.dropWhile (· ≠ '.') with
  | '.' :: fr =>
    if ip ≠ [] ∧ ip.all isDecDigit ∧ fr.length = 4 ∧ fr.all isDecDigit then
      some ((fromDigits ip : ℚ) + (fromDigits fr : ℚ) / 10000)
    else none
  | _ => none

/-- Parse a (possibly negative) fixed-point numeral with exactly four
fractional digits. -/
def parseFix4 (s : String) : Option ℚ :=
  match s.data with
  | [] => none
  | c :: rest =>
    if c = '-' then (parseUFix4 rest).map (fun q => -q) else parseUFix4 (c :: rest)

/-! ## Basic lemmas about the decimal helpers -/

theorem decDigit_isDecDigit (d : Nat) : isDecDigit (decDigit d) = true := by
  unfold decDigit
  have h10 : d % 10 < 10 := Nat.mod_lt _ (by decide)
  interval_cases h : d % 10 <;> decide

theorem natToDecAux_digits :
    ∀ f n : Nat, ∀ c ∈ natToDecAux f n, isDecDigit c = true := by
  intro f
  induction f with
  | zero =>
    intro n c hc
    cases n <;> simp [natToDecAux] at hc
  | succ f ih =>
    intro n c hc
    cases n with
    | zero => simp [natToDecAux] at hc
    | succ n =>
      rw [natToDecAux] at hc
      rcases List.mem_append.mp hc with hc | hc
      · exact ih _ c hc
      · rw [List.mem_singleton] at hc
        subst hc
        exact decDigit_isDecDigit _

theorem decDigit_toNat (d : Nat) : (decDigit d).toNat = 48 + d % 10 := by
  unfold decDigit
  have h10 : d % 10 < 10 := Nat.mod_lt _ (by decide)
  interval_cases h : d % 10 <;> decide

theorem fromDigits_natToDecAux :
    ∀ f n : Nat, n ≤ f → fromDigits (natToDecAux f n) = n := by
  intro f
  induction f with
  | zero =>
    intro n hn
    have : n = 0 := Nat.le_zero.mp hn
    subst this
    rfl
  | succ f ih =>
    intro n hn
    cases n with
    | zero => rfl
    | succ n =>
      rw [natToDecAux]
      unfold fromDigits
      rw [List.foldl_append]
      have hle : (n + 1) / 10 ≤ f := by omega
      have := ih ((n + 1) / 10) hle
      unfold fromDigits at this
      rw [this]
      simp only [List.foldl_cons, List.foldl_nil, digitVal, decDigit_toNat]
      omega

theorem natToDecAux_ne_nil (f n : Nat) (h : n ≠ 0) : natToDecAux (f + 1) n ≠ [] := by
  cases n with
  | zero => exact absurd rfl h
  | succ n =>
    rw [natToDecAux]
    exact List.append_ne_nil_of_right_ne_nil _ (by simp)

/-- The character list of `natToDec n`, its digit-ness and its value. -/
theorem natToDec_spec (n : Nat) :
    (natToDec n).data ≠ [] ∧ (∀ c ∈ (natToDec n).data, isDecDigit c = true) ∧
      fromDigits (natToDec n).data = n := by
  unfold natToDec
  by_cases h : n = 0
  · subst h
    refine ⟨by decide, ?_, by decide⟩
    intro c hc
    simp only [if_pos rfl] at hc
    have : c = '0' := by simpa using hc
    subst this; decide
  · simp only [h, if_neg, not_false_iff]
    obtain ⟨f, hf⟩ : ∃ f, n = f + 1 := ⟨n - 1, by omega⟩
    refine ⟨?_, natToDecAux_digits n n, fromDigits_natToDecAux n n le_rfl⟩
    rw [hf]
    exact natToDecAux_ne_nil f (f + 1) (by omega)

theorem dropLit_append (p r : List Char) : dropLit p (p ++ r) = some r := by
  induction p with
  | nil => rfl
  | cons c cs ih => simp [dropLit, ih]

theorem takeWhile_append_of_all {p : Char → Bool} (a b : List Char)
    (ha : ∀ c ∈ a, p c = true) :
    (a ++ b).takeWhile p = a ++ b.takeWhile p := by
  induction a with
  | nil => rfl
  | cons c cs ih =>
    have hc : p c = true := ha c (List.mem_cons_self _ _)
    simp only [List.cons_append, List.takeWhile_cons, hc]
    rw [ih (fun d hd => ha d (List.mem_cons_of_mem _ hd))]
    simp

theorem dropWhile_append_of_all {p : Char → Bool} (a b : List Char)
    (ha : ∀ c ∈ a, p c = true) :
    (a ++ b).dropWhile p = b.dropWhile p := by
  induction a with
  | nil => rfl
  | cons c cs ih =>
    have hc : p c = true := ha c (List.mem_cons_self _ _)
    simp only [List.cons_append, List.dropWhile_cons, hc]
    exact ih (fun d hd => ha d (List.mem_cons_of_mem _ hd))

theorem isDecDigit_ne_dot {c : Char} (h : isDecDigit c = true) : (c ≠ '.') = True := by
  simp only [ne_eq, eq_iff_iff, iff_true]
  intro hc
  subst hc
  simp [isDecDigit] at h

theorem roundHalfEven_nonneg {x : ℚ} (hx : 0 ≤ x) : 0 ≤ roundHalfEven x := by
  unfold roundHalfEven
  have hfl : (0 : ℤ) ≤ ⌊x⌋ := Int.floor_nonneg.2 hx
  split
  · exact hfl
  · split
    · omega
    · split <;> omega

theorem roundHalfEven_nonpos {x : ℚ} (hx : x < 0) : roundHalfEven x ≤ 0 := by
  unfold roundHalfEven
  have hfl : ⌊x⌋ < 0 := Int.floor_lt.mpr (by exact_mod_cast hx)
  split
  · omega
  · split
    · omega
    · split <;> omega

/-- The integer-arithmetic `scaled4` computes exactly the half-even
rounding of `q * 10000`. -/
theorem scaled4_eq (q : ℚ) : scaled4 q = roundHalfEven (q * 10000) := by
  have hd : (0 : ℤ) < (q.den : ℤ) := by exact_mod_cast q.den_pos
  have hdq : (0 : ℚ) < ((q.den : ℕ) : ℚ) := by exact_mod_cast q.den_pos
  have hx : q * 10000 = ((q.num * 10000 : ℤ) : ℚ) / ((q.den : ℕ) : ℚ) := by
    conv_lhs => rw [← Rat.num_div_den q]
    push_cast
    ring
  have hfl : ⌊q * 10000⌋ = q.num * 10000 / (q.den : ℤ) := by
    rw [hx]
    exact Rat.floor_intCast_div_natCast _ _
  have hmod : (q.den : ℤ) * (q.num * 10000 / (q.den : ℤ)) +
      q.num * 10000 % (q.den : ℤ) = q.num * 10000 := Int.ediv_add_emod _ _
  have hmq : ((q.den : ℤ) : ℚ) * ((q.num * 10000 / (q.den : ℤ) : ℤ) : ℚ) +
      ((q.num * 10000 % (q.den : ℤ) : ℤ) : ℚ) = ((q.num * 10000 : ℤ) : ℚ) := by
    exact_mod_cast hmod
  have hfr : q * 10000 - (⌊q * 10000⌋ : ℚ) =
      ((q.num * 10000 % (q.den : ℤ) : ℤ) : ℚ) / ((q.den : ℕ) : ℚ) := by
    rw [hfl, hx]
    field_simp
    push_cast at hmq ⊢
    linarith [hmq]
  have hhalf1 : (q * 10000 - (⌊q * 10000⌋ : ℚ) < 1 / 2) ↔
      2 * (q.num * 10000 % (q.den : ℤ)) < (q.den : ℤ) := by
    rw [hfr, div_lt_div_iff₀ hdq (by norm_num : (0 : ℚ) < 2)]
    constructor
    · intro h
      have h' : ((2 * (q.num * 10000 % (q.den : ℤ)) : ℤ) : ℚ) < (((q.den : ℤ)) : ℚ) := by
        push_cast
        push_cast at h
        linarith
      exact_mod_cast h'
    · intro h
      have h' : ((2 * (q.num * 10000 % (q.den : ℤ)) : ℤ) : ℚ) < (((q.den : ℤ)) : ℚ) := by
        exact_mod_cast h
      push_cast at h'
      linarith
  have hhalf2 : (1 / 2 < q * 10000 - (⌊q * 10000⌋ : ℚ)) ↔
      (q.den : ℤ) < 2 * (q.num * 10000 % (q.den : ℤ)) := by
    rw [hfr, div_lt_div_iff₀ (by norm_num : (0 : ℚ) < 2) hdq]
    constructor
    · intro h
      have h' : (((q.den : ℤ)) : ℚ) < ((2 * (q.num * 10000 % (q.den : ℤ)) : ℤ) : ℚ) := by
        push_cast
        push_cast at h
        linarith
      exact_mod_cast h'
    · intro h
      have h' : (((q.den : ℤ)) : ℚ) < ((2 * (q.num * 10000 % (q.den : ℤ)) : ℤ) : ℚ) := by
        exact_mod_cast h
      push_cast at h'
      linarith
  unfold scaled4 roundHalfEven
  by_cases h1 : 2 * (q.num * 10000 % (q.den : ℤ)) < (q.den : ℤ)
  · rw [if_pos h1, if_pos (hhalf1.mpr h1), hfl]
  · rw [if_neg h1, if_neg (fun hc => h1 (hhalf1.mp hc))]
    by_cases h2 : (q.den : ℤ) < 2 * (q.num * 10000 % (q.den : ℤ))
    · rw [if_pos h2, if_pos (hhalf2.mpr h2), hfl]
    · rw [if_neg h2, if_neg (fun hc => h2 (hhalf2.mp hc))]
      by_cases h3 : (q.num * 10000 / (q.den : ℤ)) % 2 = 0
      · rw [if_pos h3, if_pos (by rw [hfl]; exact h3), hfl]
      · rw [if_neg h3, if_neg (by rw [hfl]; exact h3), hfl]

theorem scaled4_nonneg {q : ℚ} (hq : 0 ≤ q) : 0 ≤ scaled4 q := by
  rw [scaled4_eq]
  exact roundHalfEven_nonneg (mul_nonneg hq (by norm_num))

theorem scaled4_nonpos {q : ℚ} (hq : q < 0) : scaled4 q ≤ 0 := by
  rw [scaled4_eq]
  exact roundHalfEven_nonpos (mul_neg_of_neg_of_pos hq (by norm_num))

/-- Every character of the fractional part of a `:.4f` rendering is a
decimal digit, there are exactly four of them, and they reconstruct the
scaled value `m % 10000`. -/
theorem fracDigits4_spec (m : Nat) :
    (fracDigits4 m).length = 4 ∧ (∀ c ∈ fracDigits4 m, isDecDigit c = true) ∧
      fromDigits (fracDigits4 m) = m % 10000 := by
  refine ⟨rfl, ?_, ?_⟩
  · intro c hc
    simp only [fracDigits4, List.mem_cons, List.not_mem_nil, or_false] at hc
    have hd : ∀ d : Nat, isDecDigit (decDigit d) = true := by
      intro d
      unfold decDigit
      have h10 : d % 10 < 10 := Nat.mod_lt _ (by decide)
      interval_cases h : d % 10 <;> decide
    rcases hc with h | h | h | h <;> (subst h; exact hd _)
  · simp only [fromDigits, fracDigits4, List.foldl_cons, List.foldl_nil, digitVal,
      decDigit_toNat]
    omega

/-- The character decomposition of a `:.4f` rendering. -/
theorem format4_data (q : ℚ) :
    (format4 q).data =
      (if q < 0 then ['-'] else []) ++ (natToDec ((scaled4 q).natAbs / 10000)).data
        ++ '.' :: fracDigits4 ((scaled4 q).natAbs % 10000) := by
  unfold format4
  by_cases h : q < 0 <;>
    simp [h, String.data_append]

/-- Every character of a `:.4f` rendering is a digit, a minus sign or a
dot; in particular it is never a comma or a newline. -/
theorem format4_chars (q : ℚ) :
    ∀ c ∈ (format4 q).data, isDecDigit c = true ∨ c = '-' ∨ c = '.' := by
  intro c hc
  rw [format4_data] at hc
  rcases List.mem_append.mp hc with hAB | hdot
  · rcases List.mem_append.mp hAB with hA | hB
    · right; left
      split at hA
      · simpa using hA
      · simp at hA
    · exact Or.inl ((natToDec_spec _).2.1 c hB)
  · rcases List.mem_cons.mp hdot with hd | hfr
    · exact Or.inr (Or.inr hd)
    · exact Or.inl ((fracDigits4_spec _).2.1 c hfr)

/-- A `:.4f` rendering splits as `ip ++ "." ++ fr` with `fr` exactly four
digit characters and no dot inside `ip`. -/
theorem format4_four_frac_digits (q : ℚ) :
    ∃ ip fr, (format4 q).data = ip ++ '.' :: fr ∧ fr.length = 4 ∧
      (∀ c ∈ fr, isDecDigit c = true) ∧ '.' ∉ ip := by
  refine ⟨(if q < 0 then ['-'] else []) ++ (natToDec ((scaled4 q).natAbs / 10000)).data,
    fracDigits4 ((scaled4 q).natAbs % 10000), ?_, (fracDigits4_spec _).1,
    (fracDigits4_spec _).2.1, ?_⟩
  · rw [format4_data, List.append_assoc]
  · intro hmem
    rcases List.mem_append.mp hmem with hA | hB
    · split at hA <;> simp at hA
    · have := (natToDec_spec ((scaled4 q).natAbs / 10000)).2.1 _ hB
      simp [isDecDigit] at this

theorem digit_ne_dot {c : Char} (h : isDecDigit c = true) : decide (c ≠ '.') = true := by
  simp only [ne_eq, decide_eq_true_eq]
  intro hc
  subst hc
  simp [isDecDigit] at h

/-- Parsing an unsigned `:.4f` body recovers the scaled value. -/
theorem parseUFix4_round (m : Nat) :
    parseUFix4 ((natToDec (m / 10000)).data ++ '.' :: fracDigits4 (m % 10000)) =
      some ((m : ℚ) / 10000) := by
  obtain ⟨hne, hdig, hval⟩ := natToDec_spec (m / 10000)
  obtain ⟨hlen, hfdig, hfval⟩ := fracDigits4_spec (m % 10000)
  unfold parseUFix4
  have hall : ∀ c ∈ (natToDec (m / 10000)).data, (fun c => decide (c ≠ '.')) c = true :=
    fun c hc => digit_ne_dot (hdig c hc)
  rw [takeWhile_append_of_all _ _ hall, dropWhile_append_of_all _ _ hall]
  simp only [List.takeWhile_cons, List.dropWhile_cons]
  norm_num
  refine ⟨⟨hne, hdig, hlen, hfdig⟩, ?_⟩
  rw [hval, hfval]
  have h1 : m % 10000 % 10000 = m % 10000 := by omega
  rw [h1]
  have hm : m / 10000 * 10000 + m % 10000 = m := by omega
  have hmq : ((m / 10000 : ℕ) : ℚ) * 10000 + ((m % 10000 : ℕ) : ℚ) = (m : ℚ) := by
    exact_mod_cast hm
  field_simp
  linarith [hmq]

/-- Round-trip of the `:.4f` embedding: parsing a formatted value yields
exactly the half-even-rounded four-decimal value of the input. -/
theorem parseFix4_format4 (q : ℚ) :
    parseFix4 (format4 q) = some ((scaled4 q : ℚ) / 10000) := by
  by_cases h : q < 0
  · have hdata : (format4 q).data =
        '-' :: ((natToDec ((scaled4 q).natAbs / 10000)).data
          ++ '.' :: fracDigits4 ((scaled4 q).natAbs % 10000)) := by
      rw [format4_data]
      simp [h]
    unfold parseFix4
    rw [hdata]
    have hle : scaled4 q ≤ 0 := scaled4_nonpos h
    have h2 : (((scaled4 q).natAbs : ℕ) : ℚ) = -((scaled4 q : ℤ) : ℚ) := by
      rw [Int.cast_natAbs, abs_of_nonpos hle, Int.cast_neg]
    simp [parseUFix4_round, h2, neg_div]
  · have hdata : (format4 q).data =
        (natToDec ((scaled4 q).natAbs / 10000)).data
          ++ '.' :: fracDigits4 ((scaled4 q).natAbs % 10000) := by
      rw [format4_data]
      simp [h]
    have hge : 0 ≤ scaled4 q := scaled4_nonneg (not_lt.mp h)
    obtain ⟨hne, hdig, _⟩ := natToDec_spec ((scaled4 q).natAbs / 10000)
    unfold parseFix4
    rw [hdata]
    cases hcs : (natToDec ((scaled4 q).natAbs / 10000)).data with
    | nil => exact absurd hcs hne
    | cons c tl =>
      have hcd : isDecDigit c = true := hdig c (hcs ▸ List.mem_cons_self _ _)
      have hcne : c ≠ '-' := by
        intro hceq
        subst hceq
        simp [isDecDigit] at hcd
      simp only [List.cons_append, if_neg hcne]
      rw [← List.cons_append, ← hcs, parseUFix4_round]
      have h2 : (((scaled4 q).natAbs : ℕ) : ℚ) = ((scaled4 q : ℤ) : ℚ) := by
        rw [Int.cast_natAbs, abs_of_nonneg hge]
      rw [h2]

/-! ## Data model of the batch image processor (`mediapipe_pose_estimator.py`) -/

/-- An in-memory decoded image: pixel dimensions plus opaque pixel
payload (the embedding of an OpenCV image array). -/
structure Image where
  width : Nat
  height : Nat
  pixels : List Nat
deriving DecidableEq, Repr

/-- A single pose landmark as returned by the external estimator:
normalized x/y/z position and visibility score (modelled as rationals). -/
structure Landmark where
  x : ℚ
  y : ℚ
  z : ℚ
  visibility : ℚ
deriving DecidableEq, Repr

/-- The result object of the external single-image inference call
(`pose.process`): optional landmark list and optional segmentation mask. -/
structure PoseResult where
  pose_landmarks : Option (List Landmark)
  segmentation_mask : Option (List ℚ)

/-- The opaque external collaborators of the processor: the estimator
call, the keypoint/connection renderer and the mask blender. -/
structure MPEnv where
  poseProcess : Image → PoseResult
  drawLandmarks : Image → List Landmark → Image
  blendMask : Image → List ℚ → Image

/-- Pixel dimensions recorded in a landmark dump. -/
structure ImageSize where
  width : Nat
  height : Nat
deriving DecidableEq, Repr

/-- The `landmarks_dict` value built by `process_image`: enumerated
landmarks plus the source image's dimensions. -/
structure LandmarksDict where
  landmarks : List (Nat × Landmark)
  image_size : ImageSize
deriving DecidableEq

/-- The embedding of `PoseEstimator.process_image`: runs the estimator;
with no detected pose it returns the unmodified copy of the input and no
landmark data, otherwise the rendered (and possibly mask-blended) copy
plus the enumerated landmark dictionary. -/
def process_image (env : MPEnv) (image : Image) : Image × Option LandmarksDict :=
  let results := env.poseProcess image
  match results.pose_landmarks with
  | none => (image, none)
  | some lms =>
    let drawn := env.drawLandmarks image lms
    let d : LandmarksDict :=
      { landmarks := lms.enum, image_size := ⟨image.width, image.height⟩ }
    let final :=
      match results.segmentation_mask with
      | some mask => env.blendMask drawn mask
      | none => drawn
    (final, some d)

/-- A single-quote character, used in the Python `repr` of the image-size
dictionary. -/
def sglq : String := String.singleton (Char.ofNat 39)

/-- The Python `str()` rendering of the `image_size` dictionary. -/
def sizeRepr (sz : ImageSize) : String :=
  "\x7b" ++ sglq ++ "width" ++ sglq ++ ": " ++ natToDec sz.width ++ ", " ++
    sglq ++ "height" ++ sglq ++ ": " ++ natToDec sz.height ++ "\x7d"

/-- The four lines written for one landmark by `save_landmarks` (the
final empty line is the blank separator ending the block). -/
def landmarkBlockLines (il : Nat × Landmark) : List String :=
  ["ID: " ++ natToDec il.1,
   "Position: x=" ++ format4 il.2.x ++ ", y=" ++ format4 il.2.y ++
     ", z=" ++ format4 il.2.z,
   "Visibility: " ++ format4 il.2.visibility,
   ""]

/-- The embedding of `PoseEstimator.save_landmarks`: the lines of the
text file it writes (text files are modelled as lists of lines). -/
def save_landmarks_lines (d : LandmarksDict) : List String :=
  ["Image size: " ++ sizeRepr d.image_size, "", "Landmarks:"] ++
    d.landmarks.flatMap landmarkBlockLines

/-! ## The per-file oracle and the event trace of a processor run -/

/-- Oracle describing, per input filename, how the external world behaves
while that file is processed: the decode result of `cv2.imread` (`none`
models an unreadable image), and for each of the three fallible calls an
optional exception (`some msg` raises with message `msg`). -/
structure FileOracle where
  imread : String → Option Image
  processRaise : String → Option String
  imwriteRaise : String → Option String
  saveRaise : String → Option String

/-- Observable events of a processor run. -/
inductive PEvent where
  | mkdirOut (path : String)
  | writeImage (path : String) (img : Image)
  | writeText (path : String) (lines : List String)
  | logMsg (msg : String)
deriving DecidableEq

/-- The output path of the rendered image for input filename `name`. -/
def posePath (od name : String) : String := od ++ "/pose_" ++ name

/-- Position of the last `'.'` of a name, if any. -/
def lastDotIdx (cs : List Char) : Option Nat :=
  ((cs.enum.filter (fun p => p.2 = '.')).map (fun p => p.1)).getLast?

/-- The embedding of `pathlib.PurePath.stem`: the filename without its
final suffix; a leading or trailing dot yields no suffix. -/
def pathStem (s : String) : String :=
  match lastDotIdx s.data with
  | none => s
  | some i => if 0 < i ∧ i < s.data.length - 1 then String.mk (s.data.take i) else s

/-- The output path of the landmark dump for input filename `name`. -/
def landmarkPath (od name : String) : String :=
  od ++ "/landmarks_" ++ pathStem name ++ ".txt"

/-- The per-image error log line (`處理 {name} 時發生錯誤: {e}`). -/
def errorMsg (name msg : String) : String :=
  "處理 " ++ name ++ " 時發生錯誤: " ++ msg

/-- The unreadable-image log line (`無法讀取圖片: {file}`). -/
def unreadableMsg (name : String) : String := "無法讀取圖片: " ++ name

/-- The body of the `for image_file in ...` loop of `process_directory`
for one file: the events that processing `name` emits.  Any raised
exception is caught and logged together with the filename. -/
def processOne (env : MPEnv) (oracle : FileOracle) (od name : String) : List PEvent :=
  match oracle.imread name with
  | none => [.logMsg (unreadableMsg name)]
  | some image =>
    match oracle.processRaise name with
    | some m => [.logMsg (errorMsg name m)]
    | none =>
      let r := process_image env image
      match oracle.imwriteRaise name with
      | some m => [.logMsg (errorMsg name m)]
      | none =>
        match r.2 with
        | none => [.writeImage (posePath od name) r.1]
        | some d =>
          match oracle.saveRaise name with
          | some m => [.writeImage (posePath od name) r.1, .logMsg (errorMsg name m)]
          | none => [.writeImage (posePath od name) r.1,
                     .writeText (landmarkPath od name) (save_landmarks_lines d)]

/-- Code-point lexicographic order on character lists: the embedding of
Python string comparison, used by `sorted`. -/
def lexLe : List Char → List Char → Bool
  | [], _ => true
  | _ :: _, [] => false
  | a :: as, b :: bs => if a = b then lexLe as bs else decide (a < b)

/-- Filename order used by `sorted(image_files)`. -/
def fileLe (a b : String) : Prop := lexLe a.data b.data = true

instance : DecidableRel fileLe := fun a b =>
  inferInstanceAs (Decidable (lexLe a.data b.data = true))

/-- The literal suffixes of the four glob patterns
`['*.jpg', '*.jpeg', '*.png', '*.bmp']`. -/
def image_patterns : List String := [".jpg", ".jpeg", ".png", ".bmp"]

/-- Does `name` match the glob pattern `*` ++ `suffix`?  For these
patterns `fnmatch` semantics is exactly a case-sensitive suffix test. -/
def globMatches (suffix name : String) : Bool :=
  suffix.data.isSuffixOf name.data

/-- The file-discovery phase of `process_directory`: per-pattern glob
over the directory entries, concatenated, then sorted. -/
def discoverImages (entries : List String) : List String :=
  List.insertionSort fileLe
    (image_patterns.flatMap (fun pat => entries.filter (globMatches pat)))

/-- The empty-directory warning (`警告: 在 {input_dir} 中未找到圖片文件`). -/
def emptyWarning (idir : String) : String :=
  "警告: 在 " ++ idir ++ " 中未找到圖片文件"

/-- The embedding of `PoseEstimator.process_directory`: its full event
trace, given the entries of the input directory and the oracles. -/
def process_directory (env : MPEnv) (oracle : FileOracle) (idir od : String)
    (entries : List String) : List PEvent :=
  let files := discoverImages entries
  if files.isEmpty then
    [.mkdirOut od, .logMsg (emptyWarning idir)]
  else
    [.mkdirOut od, .logMsg "開始處理圖片"] ++ files.flatMap (processOne env oracle od)

/-! ## The output directory as a file store -/

/-- Content of a file in the output directory. -/
inductive FileData where
  | imageData (img : Image)
  | textData (lines : List String)
deriving DecidableEq

/-- The output directory: an association of paths to file contents,
later writes overwriting earlier ones. -/
def FS := List (String × FileData)

/-- Write (create or overwrite) `p` with content `d`. -/
def fsWrite (fs : FS) (p : String) (d : FileData) : FS :=
  match fs with
  | [] => [(p, d)]
  | (q, e) :: rest => if q = p then (p, d) :: rest else (q, e) :: fsWrite rest p d

/-- Look up the content of path `p`. -/
def fsLookup (fs : FS) (p : String) : Option FileData :=
  match fs with
  | [] => none
  | (q, e) :: rest => if q = p then some e else fsLookup rest p

/-- Effect of one event on the output directory. -/
def applyEvent (fs : FS) : PEvent → FS
  | .writeImage p i => fsWrite fs p (.imageData i)
  | .writeText p t => fsWrite fs p (.textData t)
  | _ => fs

/-- The final state of the output directory after a run. -/
def runFS (evs : List PEvent) : FS := evs.foldl applyEvent []

/-- Does the event write (an image or a text file) to path `p`? -/
def writesTo (p : String) : PEvent → Bool
  | .writeImage q _ => q = p
  | .writeText q _ => q = p
  | _ => false

/-- Is the event an image-file write? -/
def isImageWrite : PEvent → Bool
  | .writeImage _ _ => true
  | _ => false

/-- Is the event a text-file write? -/
def isTextWrite : PEvent → Bool
  | .writeText _ _ => true
  | _ => false

/-- Number of image files in the store. -/
def fsImageCount (fs : FS) : Nat :=
  (fs.filter (fun e => match e.2 with | .imageData _ => true | _ => false)).length

/-- Number of text files in the store. -/
def fsTextCount (fs : FS) : Nat :=
  (fs.filter (fun e => match e.2 with | .textData _ => true | _ => false)).length

/-! ## Model of the batch invoker (`openpose_pose_estimator.py`) -/

/-- Outcome of the `subprocess.run(..., check=True)` call. -/
inductive SubprocOutcome where
  | completed (returncode : Int) (stdout stderr : String)
  | raised (msg : String)

/-- The environment the invoker script runs against: existence of the
input directory, existence of each filesystem path (used to probe the
candidate executable paths), and the behavior of the subprocess. -/
structure OPEnv where
  inputDirExists : Bool
  pathExists : String → Bool
  runOutcome : List String → SubprocOutcome

/-- Observable events of an invoker run. -/
inductive OPEvent where
  | mkdirOut (path : String)
  | printMsg (msg : String)
  | runProc (cmd : List String)
  | uncaught (exc : String)
deriving DecidableEq

/-- The hardcoded input directory of the invoker script. -/
def op_input_dir : String :=
  "/Users/joyfulsucessful/Desktop/AIGC/AIGC_test/woman-posing_512_8fps_8s"

/-- The hardcoded output directory (`input_dir / 'output'`). -/
def op_output_dir : String := op_input_dir ++ "/output"

/-- The fixed ordered list of candidate OpenPose executable paths. -/
def possible_paths : List String :=
  ["./build/examples/openpose/openpose.bin",
   "/usr/local/bin/openpose.bin",
   "C:/Program Files/OpenPose/bin/OpenPoseDemo.exe"]

/-- The first candidate path that exists, if any (the probing loop). -/
def findBinary (env : OPEnv) : Option String :=
  possible_paths.find? (fun p => env.pathExists p)

/-- The remediation guidance printed when no executable is found. -/
def notFoundMsgs : List String :=
  ["錯誤：找不到 OpenPose 執行檔！",
   "請確認 OpenPose 已正確安裝，並提供正確的執行檔路徑。",
   "可能的解決方案：",
   "1. 確認 OpenPose 已正確安裝",
   "2. 手動指定 OpenPose 執行檔的完整路徑",
   "3. 將 OpenPose 加入系統環境變數"]

/-- The fixed flag set the invoker passes to the executable. -/
def opCommand (bin : String) : List String :=
  [bin, "--image_dir", op_input_dir, "--write_images", op_output_dir,
   "--display", "0", "--render_pose", "1"]

/-- The embedding of the whole `openpose_pose_estimator.py` module run:
its event trace and the process exit status. -/
def openpose_script (env : OPEnv) : List OPEvent × Nat :=
  if env.inputDirExists = false then
    ([.uncaught "FileNotFoundError"], 1)
  else
    match findBinary env with
    | none =>
      ([.mkdirOut op_output_dir] ++ notFoundMsgs.map .printMsg, 1)
    | some bin =>
      let cmd := opCommand bin
      let pre : List OPEvent :=
        [.mkdirOut op_output_dir,
         .printMsg ("使用的 OpenPose 路徑: " ++ bin),
         .printMsg "執行命令", .runProc cmd]
      match env.runOutcome cmd with
      | .completed rc _ serr =>
        if rc = 0 then
          (pre ++ [.printMsg "處理完成！",
                   .printMsg ("輸出已保存到: " ++ op_output_dir)], 0)
        else
          (pre ++ [.printMsg "執行 OpenPose 時發生錯誤",
                   .printMsg ("錯誤輸出: " ++ serr),
                   .printMsg "請檢查：",
                   .printMsg "1. OpenPose 是否正確安裝",
                   .printMsg "2. 執行檔路徑是否正確",
                   .printMsg "3. 是否有足夠的權限執行"], 0)
      | .raised m =>
        (pre ++ [.printMsg ("發生未預期的錯誤: " ++ m)], 0)

/-! ## Model of the processor's `main()` dependency bootstrap -/

/-- Environment for `main()`: which imports succeed and which pip
installations fail. -/
structure MainEnv where
  importOk : String → Bool
  pipFails : String → Bool

/-- Observable events of `main()`. -/
inductive MainEvent where
  | logMsg (msg : String)
  | pipInstall (pkg : String)
  | constructEstimator
  | processDir
deriving DecidableEq

/-- The packages `main()` checks at startup. -/
def required_packages : List String := ["mediapipe", "tqdm"]

/-- The check-and-install loop of `main()`: for each package, try to
load it; on failure spawn `pip install`; a pip failure raises out of
the loop (events so far, aborted = true). -/
def installLoop (env : MainEnv) : List String → List MainEvent × Bool
  | [] => ([], false)
  | p :: rest =>
    if env.importOk p then installLoop env rest
    else
      let evs := [MainEvent.logMsg ("安裝 " ++ p ++ "..."), MainEvent.pipInstall p]
      if env.pipFails p then (evs, true)
      else
        let (evs2, ab) := installLoop env rest
        (evs ++ evs2, ab)

/-- The embedding of `main()`: dependency bootstrap, then estimator
construction and the directory run; any exception is caught by the outer
`try` and logged. -/
def mainRun (env : MainEnv) : List MainEvent :=
  let (evs, aborted) := installLoop env required_packages
  if aborted then evs ++ [.logMsg "發生錯誤"]
  else
    evs ++ [.logMsg "初始化姿態估計器...", .constructEstimator, .processDir,
            .logMsg "處理完成！"]

/-! ## Parsing the landmark text back (for the serialization claims) -/

/-- Strip an expected literal prefix from a line, returning the rest. -/
def parseValLine (pre l : String) : Option String :=
  (dropLit pre.data l.data).map String.mk

/-- Parse a `Position: x=..., y=..., z=...` line into its three value
substrings. -/
def parsePosLine (l : String) : Option (String × String × String) :=
  match dropLit "Position: x=".data l.data with
  | none => none
  | some r0 =>
    let xs := r0.takeWhile (· ≠ ',')
    match dropLit ", y=".data (r0.dropWhile (· ≠ ',')) with
    | none => none
    | some r1 =>
      let ys := r1.takeWhile (· ≠ ',')
      match dropLit ", z=".data (r1.dropWhile (· ≠ ',')) with
      | none => none
      | some r2 =>
        if r2.any (· = ',') then none
        else some (String.mk xs, String.mk ys, String.mk r2)

/-- Parse a sequence of four-line landmark blocks, each terminated by a
blank separator line, into (id, x, y, z, visibility) value strings. -/
def parseBlocks : List String → Option (List (String × String × String × String × String))
  | [] => some []
  | l1 :: l2 :: l3 :: l4 :: rest =>
    if l4 = "" then
      match parseValLine "ID: " l1, parsePosLine l2, parseValLine "Visibility: " l3 with
      | some i, some (x, y, z), some v =>
        (parseBlocks rest).map (fun bs => (i, x, y, z, v) :: bs)
      | _, _, _ => none
    else none
  | _ => none

theorem parseValLine_append (pre s : String) :
    parseValLine pre (pre ++ s) = some s := by
  unfold parseValLine
  rw [String.data_append, dropLit_append]
  rfl

theorem format4_no_comma (q : ℚ) :
    ∀ c ∈ (format4 q).data, (fun c => decide (c ≠ ',')) c = true := by
  intro c hc
  rcases format4_chars q c hc with h | h | h
  · simp only [decide_eq_true_eq]
    intro he
    subst he
    simp [isDecDigit] at h
  · subst h; decide
  · subst h; decide

theorem takeWhile_comma (l : List Char) :
    (',' :: l).takeWhile (fun c => decide (c ≠ ',')) = [] := by
  rw [List.takeWhile_cons]
  norm_num

theorem dropWhile_comma (l : List Char) :
    (',' :: l).dropWhile (fun c => decide (c ≠ ',')) = ',' :: l := by
  rw [List.dropWhile_cons]
  norm_num

theorem parsePosLine_append (x y z : ℚ) :
    parsePosLine ("Position: x=" ++ format4 x ++ ", y=" ++ format4 y ++
      ", z=" ++ format4 z) = some (format4 x, format4 y, format4 z) := by
  unfold parsePosLine
  have hx := format4_no_comma x
  have hy := format4_no_comma y
  have hdata : ("Position: x=" ++ format4 x ++ ", y=" ++ format4 y ++
      ", z=" ++ format4 z).data = "Position: x=".data ++ ((format4 x).data ++
        (", y=".data ++ ((format4 y).data ++ (", z=".data ++ (format4 z).data)))) := by
    simp [String.data_append]
  rw [hdata, dropLit_append]
  dsimp only
  rw [show ", y=".data ++ ((format4 y).data ++ (", z=".data ++ (format4 z).data)) =
      ',' :: (" y=".data ++ ((format4 y).data ++ (", z=".data ++ (format4 z).data)))
      from rfl]
  rw [takeWhile_append_of_all _ _ hx, dropWhile_append_of_all _ _ hx,
    takeWhile_comma, dropWhile_comma, List.append_nil]
  rw [show ',' :: (" y=".data ++ ((format4 y).data ++ (", z=".data ++ (format4 z).data))) =
      ", y=".data ++ ((format4 y).data ++ (", z=".data ++ (format4 z).data)) from rfl,
    dropLit_append]
  dsimp only
  rw [show ", z=".data ++ (format4 z).data = ',' :: (" z=".data ++ (format4 z).data)
      from rfl]
  rw [takeWhile_append_of_all _ _ hy, dropWhile_append_of_all _ _ hy,
    takeWhile_comma, dropWhile_comma, List.append_nil]
  rw [show ',' :: (" z=".data ++ (format4 z).data) = ", z=".data ++ (format4 z).data
      from rfl, dropLit_append]
  dsimp only
  have h5 : ((format4 z).data.any (fun c => decide (c = ','))) = false := by
    rw [List.any_eq_false]
    intro c hc
    have := format4_no_comma z c hc
    simp only [decide_eq_true_eq] at this
    simp [this]
  rw [h5]
  rfl

/-- Parsing the concatenated landmark blocks recovers, for every
landmark in order, its rendered id and the four formatted values. -/
theorem parseBlocks_flatMap (ls : List (Nat × Landmark)) :
    parseBlocks (ls.flatMap landmarkBlockLines) =
      some (ls.map (fun il => (natToDec il.1, format4 il.2.x, format4 il.2.y,
        format4 il.2.z, format4 il.2.visibility))) := by
  induction ls with
  | nil => rfl
  | cons il tl ih =>
    have hb : (il :: tl).flatMap landmarkBlockLines =
        ("ID: " ++ natToDec il.1) ::
        ("Position: x=" ++ format4 il.2.x ++ ", y=" ++ format4 il.2.y ++
          ", z=" ++ format4 il.2.z) ::
        ("Visibility: " ++ format4 il.2.visibility) :: "" ::
        tl.flatMap landmarkBlockLines := rfl
    rw [hb]
    unfold parseBlocks
    rw [if_pos rfl, parseValLine_append, parsePosLine_append, parseValLine_append, ih]
    rfl

/-! ## Lemmas about the file store -/

theorem fsLookup_fsWrite (fs : FS) (p : String) (d : FileData) (q : String) :
    fsLookup (fsWrite fs p d) q = if q = p then some d else fsLookup fs q := by
  induction fs with
  | nil =>
    by_cases h : q = p
    · subst h
      simp [fsWrite, fsLookup]
    · have h' : ¬ p = q := fun he => h he.symm
      simp [fsWrite, fsLookup, h, h']
  | cons hd tl ih =>
    obtain ⟨r, e⟩ := hd
    by_cases h1 : r = p
    · subst h1
      by_cases h2 : q = r
      · subst h2
        simp [fsWrite, fsLookup]
      · have h2' : ¬ r = q := fun he => h2 he.symm
        simp [fsWrite, fsLookup, h2, h2']
    · by_cases h2 : r = q
      · subst h2
        simp [fsWrite, fsLookup, h1]
      · simp [fsWrite, fsLookup, h1, h2, ih]

theorem fsLookup_foldl_no_write (evs : List PEvent) (fs : FS) (p : String)
    (h : ∀ e ∈ evs, writesTo p e = false) :
    fsLookup (evs.foldl applyEvent fs) p = fsLookup fs p := by
  induction evs generalizing fs with
  | nil => rfl
  | cons e tl ih =>
    rw [List.foldl_cons]
    rw [ih _ (fun x hx => h x (List.mem_cons_of_mem _ hx))]
    have he := h e (List.mem_cons_self _ _)
    cases e with
    | writeImage q i =>
      simp only [writesTo, decide_eq_false_iff_not] at he
      have he' : ¬ p = q := fun hq => he hq.symm
      simp [applyEvent, fsLookup_fsWrite, he']
    | writeText q t =>
      simp only [writesTo, decide_eq_false_iff_not] at he
      have he' : ¬ p = q := fun hq => he hq.symm
      simp [applyEvent, fsLookup_fsWrite, he']
    | mkdirOut q => rfl
    | logMsg m => rfl

theorem fsLookup_foldl_isSome (evs : List PEvent) (fs : FS) (p : String) :
    (fsLookup (evs.foldl applyEvent fs) p).isSome =
      (evs.any (writesTo p) || (fsLookup fs p).isSome) := by
  induction evs generalizing fs with
  | nil => simp
  | cons e tl ih =>
    rw [List.foldl_cons, ih, List.any_cons]
    cases e with
    | writeImage q i =>
      by_cases h : q = p
      · subst h
        simp [applyEvent, fsLookup_fsWrite, writesTo]
      · have h' : ¬ p = q := fun hq => h hq.symm
        simp [applyEvent, fsLookup_fsWrite, writesTo, h, h']
    | writeText q t =>
      by_cases h : q = p
      · subst h
        simp [applyEvent, fsLookup_fsWrite, writesTo]
      · have h' : ¬ p = q := fun hq => h hq.symm
        simp [applyEvent, fsLookup_fsWrite, writesTo, h, h']
    | mkdirOut q => simp [applyEvent, writesTo]
    | logMsg m => simp [applyEvent, writesTo]

/-! ## Counting and path lemmas -/

theorem string_data_inj {s t : String} (h : s.data = t.data) : s = t := by
  cases s
  cases t
  exact congrArg String.mk h

theorem posePath_ne_landmarkPath (od g f : String) :
    posePath od g ≠ landmarkPath od f := by
  intro h
  have hd := congrArg String.data h
  unfold posePath landmarkPath at hd
  simp only [String.data_append, List.append_assoc] at hd
  have h2 : "/pose_".data ++ g.data =
      "/landmarks_".data ++ ((pathStem f).data ++ ".txt".data) :=
    List.append_cancel_left hd
  have h3 : ('/' :: 'p' :: ("ose_".data ++ g.data)) =
      ('/' :: 'l' :: ("andmarks_".data ++ ((pathStem f).data ++ ".txt".data))) := h2
  simp at h3

theorem landmarkPath_inj_stem {od f g : String}
    (h : landmarkPath od f = landmarkPath od g) : pathStem f = pathStem g := by
  have hd := congrArg String.data h
  unfold landmarkPath at hd
  simp only [String.data_append, List.append_assoc] at hd
  have h2 : (pathStem f).data ++ ".txt".data = (pathStem g).data ++ ".txt".data :=
    List.append_cancel_left (List.append_cancel_left hd)
  exact string_data_inj (List.append_cancel_right h2)

theorem fsWrite_imageData_counts (fs : FS) (p : String) (i : Image) :
    fsImageCount (fsWrite fs p (.imageData i)) ≤ fsImageCount fs + 1 ∧
      fsTextCount (fsWrite fs p (.imageData i)) ≤ fsTextCount fs := by
  induction fs with
  | nil => simp [fsWrite, fsImageCount, fsTextCount]
  | cons hd tl ih =>
    obtain ⟨r, e⟩ := hd
    by_cases h : r = p
    · subst h
      cases e <;> simp [fsWrite, fsImageCount, fsTextCount, List.length_filter_le] <;> omega
    · unfold fsWrite
      rw [if_neg h]
      cases e <;> simp [fsImageCount, fsTextCount] at ih ⊢ <;> omega

theorem fsWrite_textData_counts (fs : FS) (p : String) (t : List String) :
    fsTextCount (fsWrite fs p (.textData t)) ≤ fsTextCount fs + 1 ∧
      fsImageCount (fsWrite fs p (.textData t)) ≤ fsImageCount fs := by
  induction fs with
  | nil => simp [fsWrite, fsImageCount, fsTextCount]
  | cons hd tl ih =>
    obtain ⟨r, e⟩ := hd
    by_cases h : r = p
    · subst h
      cases e <;> simp [fsWrite, fsImageCount, fsTextCount, List.length_filter_le] <;> omega
    · unfold fsWrite
      rw [if_neg h]
      cases e <;> simp [fsImageCount, fsTextCount] at ih ⊢ <;> omega

theorem counts_foldl (evs : List PEvent) (fs : FS) :
    fsImageCount (evs.foldl applyEvent fs) ≤
        fsImageCount fs + (evs.filter isImageWrite).length ∧
      fsTextCount (evs.foldl applyEvent fs) ≤
        fsTextCount fs + (evs.filter isTextWrite).length := by
  induction evs generalizing fs with
  | nil => simp
  | cons e tl ih =>
    rw [List.foldl_cons]
    have htl := ih (applyEvent fs e)
    cases e with
    | writeImage q i =>
      have hw := fsWrite_imageData_counts fs q i
      constructor
      · calc fsImageCount (tl.foldl applyEvent (applyEvent fs (.writeImage q i)))
            ≤ fsImageCount (applyEvent fs (.writeImage q i)) +
              (tl.filter isImageWrite).length := htl.1
          _ ≤ (fsImageCount fs + 1) + (tl.filter isImageWrite).length := by
              exact Nat.add_le_add_right hw.1 _
          _ = fsImageCount fs +
              (((PEvent.writeImage q i) :: tl).filter isImageWrite).length := by
              simp [isImageWrite]
              omega
      · calc fsTextCount (tl.foldl applyEvent (applyEvent fs (.writeImage q i)))
            ≤ fsTextCount (applyEvent fs (.writeImage q i)) +
              (tl.filter isTextWrite).length := htl.2
          _ ≤ fsTextCount fs + (tl.filter isTextWrite).length := by
              exact Nat.add_le_add_right hw.2 _
          _ ≤ fsTextCount fs +
              (((PEvent.writeImage q i) :: tl).filter isTextWrite).length := by
              simp [isTextWrite]
    | writeText q t =>
      have hw := fsWrite_textData_counts fs q t
      constructor
      · calc fsImageCount (tl.foldl applyEvent (applyEvent fs (.writeText q t)))
            ≤ fsImageCount (applyEvent fs (.writeText q t)) +
              (tl.filter isImageWrite).length := htl.1
          _ ≤ fsImageCount fs + (tl.filter isImageWrite).length := by
              exact Nat.add_le_add_right hw.2 _
          _ ≤ fsImageCount fs +
              (((PEvent.writeText q t) :: tl).filter isImageWrite).length := by
              simp [isImageWrite]
      · calc fsTextCount (tl.foldl applyEvent (applyEvent fs (.writeText q t)))
            ≤ fsTextCount (applyEvent fs (.writeText q t)) +
              (tl.filter isTextWrite).length := htl.2
          _ ≤ (fsTextCount fs + 1) + (tl.filter isTextWrite).length := by
              exact Nat.add_le_add_right hw.1 _
          _ = fsTextCount fs +
              (((PEvent.writeText q t) :: tl).filter isTextWrite).length := by
              simp [isTextWrite]
              omega
    | mkdirOut q =>
      simpa [applyEvent, isImageWrite, isTextWrite] using htl
    | logMsg m =>
      simpa [applyEvent, isImageWrite, isTextWrite] using htl

/-! ## Characterization of one loop iteration -/

/-- Did pose detection succeed on file `f` (the image decoded and the
estimator returned landmarks)? -/
def detectionSucceeds (env : MPEnv) (oracle : FileOracle) (f : String) : Bool :=
  match oracle.imread f with
  | none => false
  | some img => ((env.poseProcess img).pose_landmarks).isSome

/-- Does the iteration for `f` reach and complete the rendered-image
write (decode succeeded, no exception up to and including `imwrite`)? -/
def writesPose (oracle : FileOracle) (f : String) : Bool :=
  (oracle.imread f).isSome && (oracle.processRaise f).isNone &&
    (oracle.imwriteRaise f).isNone

/-- Does the iteration for `f` write the landmark text file? -/
def writesLandmarkFile (env : MPEnv) (oracle : FileOracle) (f : String) : Bool :=
  writesPose oracle f && detectionSucceeds env oracle f &&
    (oracle.saveRaise f).isNone

theorem process_image_snd (env : MPEnv) (img : Image) :
    (process_image env img).2 = ((env.poseProcess img).pose_landmarks).map
      (fun lms => LandmarksDict.mk lms.enum (ImageSize.mk img.width img.height)) := by
  unfold process_image
  rcases h : (env.poseProcess img).pose_landmarks with _ | lms <;> simp [h]

/-- The writes performed by one loop iteration, exactly. -/
theorem processOne_any_writesTo (env : MPEnv) (oracle : FileOracle) (od f p : String) :
    (processOne env oracle od f).any (writesTo p) = true ↔
      (writesPose oracle f = true ∧ posePath od f = p) ∨
        (writesLandmarkFile env oracle f = true ∧ landmarkPath od f = p) := by
  unfold processOne writesLandmarkFile writesPose detectionSucceeds
  rcases h1 : oracle.imread f with _ | img
  · simp [writesTo]
  · rcases h2 : oracle.processRaise f with _ | m
    · rcases h3 : oracle.imwriteRaise f with _ | m
      · rcases hL : (env.poseProcess img).pose_landmarks with _ | lms
        · have hr : (process_image env img).2 = none := by
            rw [process_image_snd, hL]
            rfl
          simp [hr, writesTo, hL]
        · have hr : (process_image env img).2 = some
              (LandmarksDict.mk lms.enum (ImageSize.mk img.width img.height)) := by
            rw [process_image_snd, hL]
            rfl
          rcases h4 : oracle.saveRaise f with _ | m
          · simp [hr, writesTo, hL]
          · simp [hr, writesTo, hL]
      · simp [writesTo]
    · simp [writesTo]

/-- One loop iteration performs at most one image write and at most one
text write. -/
theorem processOne_write_counts (env : MPEnv) (oracle : FileOracle) (od f : String) :
    ((processOne env oracle od f).filter isImageWrite).length ≤ 1 ∧
      ((processOne env oracle od f).filter isTextWrite).length ≤ 1 := by
  unfold processOne
  rcases h1 : oracle.imread f with _ | img
  · simp [isImageWrite, isTextWrite]
  · rcases h2 : oracle.processRaise f with _ | m
    · rcases h3 : oracle.imwriteRaise f with _ | m
      · rcases hr : (process_image env img).2 with _ | d
        · simp [hr, isImageWrite, isTextWrite]
        · rcases h4 : oracle.saveRaise f with _ | m
          · simp [hr, h4, isImageWrite, isTextWrite]
          · simp [hr, h4, isImageWrite, isTextWrite]
      · simp [isImageWrite, isTextWrite]
    · simp [isImageWrite, isTextWrite]

/-- An iteration writes text files only to its own landmark path. -/
theorem processOne_text_at_landmarkPath (env : MPEnv) (oracle : FileOracle)
    (od f p : String) (t : List String)
    (h : PEvent.writeText p t ∈ processOne env oracle od f) : p = landmarkPath od f := by
  unfold processOne at h
  rcases h1 : oracle.imread f with _ | img <;> simp only [h1] at h
  · simp at h
  · rcases h2 : oracle.processRaise f with _ | m <;> simp only [h2] at h
    · rcases h3 : oracle.imwriteRaise f with _ | m <;> simp only [h3] at h
      · rcases hr : (process_image env img).2 with _ | d <;> simp only [hr] at h
        · simp at h
        · rcases h4 : oracle.saveRaise f with _ | m <;> simp only [h4] at h
          · simp at h
            exact h.1
          · simp at h
      · simp at h
    · simp at h

/-- If an iteration writes its landmark text file, it has already written
the rendered image in the same iteration. -/
theorem processOne_text_implies_image (env : MPEnv) (oracle : FileOracle)
    (od f p : String) (t : List String)
    (h : PEvent.writeText p t ∈ processOne env oracle od f) :
    ∃ img, PEvent.writeImage (posePath od f) img ∈ processOne env oracle od f := by
  unfold processOne at h ⊢
  rcases h1 : oracle.imread f with _ | img <;> simp only [h1] at h ⊢
  · simp at h
  · rcases h2 : oracle.processRaise f with _ | m <;> simp only [h2] at h ⊢
    · rcases h3 : oracle.imwriteRaise f with _ | m <;> simp only [h3] at h ⊢
      · rcases hr : (process_image env img).2 with _ | d <;> simp only [hr] at h ⊢
        · simp at h
        · rcases h4 : oracle.saveRaise f with _ | m <;> simp only [h4] at h ⊢
          · simp
          · simp
      · simp at h
    · simp at h

/-- At most `l.length` elements survive filtering a flat map whose
pieces each contribute at most one. -/
theorem flatMap_filter_le {α β : Type} (l : List α) (g : α → List β) (p : β → Bool)
    (h : ∀ a ∈ l, ((g a).filter p).length ≤ 1) :
    ((l.flatMap g).filter p).length ≤ l.length := by
  induction l with
  | nil => simp
  | cons a tl ih =>
    rw [List.flatMap_cons, List.filter_append, List.length_append]
    have h1 := h a (List.mem_cons_self _ _)
    have h2 := ih (fun b hb => h b (List.mem_cons_of_mem _ hb))
    simp only [List.length_cons]
    omega

/-! ## Claim theorems -/

/-- C7: if the input directory contains no recognized images,
`process_directory` only creates the output directory and prints the
warning; it processes no files, writes no output files, raises no
exception, and returns normally. -/
theorem c7_empty_directory_is_warning_noop (env : MPEnv) (oracle : FileOracle)
    (idir od : String) (entries : List String)
    (h : discoverImages entries = []) :
    process_directory env oracle idir od entries =
      [.mkdirOut od, .logMsg (emptyWarning idir)] ∧
      runFS (process_directory env oracle idir od entries) = [] := by
  have h1 : process_directory env oracle idir od entries =
      [.mkdirOut od, .logMsg (emptyWarning idir)] := by
    unfold process_directory
    simp [h]
  exact ⟨h1, by rw [h1]; rfl⟩

theorem c7_witness :
    discoverImages ["notes.txt", "readme.md"] = [] ∧
      process_directory ⟨fun _ => ⟨none, none⟩, fun i _ => i, fun i _ => i⟩
        ⟨fun _ => none, fun _ => none, fun _ => none, fun _ => none⟩
        "in" "out" ["notes.txt", "readme.md"] =
        [.mkdirOut "out", .logMsg (emptyWarning "in")] :=
  ⟨by decide,
   (c7_empty_directory_is_warning_noop _ _ "in" "out" _ (by decide)).1⟩

/-- C8: file discovery selects exactly the directory entries whose names
end (case-sensitively) in one of the literal lowercase suffixes `.jpg`,
`.jpeg`, `.png`, `.bmp`; in particular an upper-case `.JPG` file is never
selected. -/
theorem c8_discovery_matches_literal_suffixes :
    (∀ (entries : List String) (f : String),
      f ∈ discoverImages entries ↔ f ∈ entries ∧
        (".jpg".data <:+ f.data ∨ ".jpeg".data <:+ f.data ∨
         ".png".data <:+ f.data ∨ ".bmp".data <:+ f.data)) ∧
      "photo.JPG" ∉ discoverImages ["photo.JPG"] := by
  constructor
  · intro entries f
    unfold discoverImages globMatches
    rw [List.mem_insertionSort, List.mem_flatMap]
    constructor
    · rintro ⟨pat, hpat, hf⟩
      rw [List.mem_filter] at hf
      refine ⟨hf.1, ?_⟩
      have hsuf := List.isSuffixOf_iff_suffix.mp hf.2
      simp only [image_patterns, List.mem_cons, List.not_mem_nil, or_false] at hpat
      rcases hpat with h | h | h | h <;> subst h <;> tauto
    · rintro ⟨hmem, hsuf⟩
      rcases hsuf with h | h | h | h
      · exact ⟨".jpg", by simp [image_patterns],
          List.mem_filter.mpr ⟨hmem, List.isSuffixOf_iff_suffix.mpr h⟩⟩
      · exact ⟨".jpeg", by simp [image_patterns],
          List.mem_filter.mpr ⟨hmem, List.isSuffixOf_iff_suffix.mpr h⟩⟩
      · exact ⟨".png", by simp [image_patterns],
          List.mem_filter.mpr ⟨hmem, List.isSuffixOf_iff_suffix.mpr h⟩⟩
      · exact ⟨".bmp", by simp [image_patterns],
          List.mem_filter.mpr ⟨hmem, List.isSuffixOf_iff_suffix.mpr h⟩⟩
  · decide

/-- C3: for a decodable image on which the estimator detects no pose,
the iteration writes exactly one file: the unmodified input image (the
very pixels `imread` returned) under the `pose_` prefixed name, and it
creates no landmark file. -/
theorem c3_no_pose_writes_unmodified_copy (env : MPEnv) (oracle : FileOracle)
    (od f : String) (img : Image)
    (hread : oracle.imread f = some img)
    (hnopose : (env.poseProcess img).pose_landmarks = none)
    (hp : oracle.processRaise f = none)
    (hw : oracle.imwriteRaise f = none) :
    processOne env oracle od f = [.writeImage (od ++ "/pose_" ++ f) img] := by
  have hr : (process_image env img).2 = none := by
    rw [process_image_snd, hnopose]
    rfl
  have hr1 : (process_image env img).1 = img := by
    unfold process_image
    simp [hnopose]
  unfold processOne
  simp only [hread, hp, hw, hr, hr1]
  rfl

theorem c3_witness :
    (⟨fun _ => some ⟨4, 3, [9, 9]⟩, fun _ => none, fun _ => none,
        fun _ => none⟩ : FileOracle).imread "a.jpg" = some ⟨4, 3, [9, 9]⟩ ∧
      ((⟨fun _ => ⟨none, none⟩, fun i _ => i, fun i _ => i⟩ :
        MPEnv).poseProcess ⟨4, 3, [9, 9]⟩).pose_landmarks = none ∧
      processOne ⟨fun _ => ⟨none, none⟩, fun i _ => i, fun i _ => i⟩
        ⟨fun _ => some ⟨4, 3, [9, 9]⟩, fun _ => none, fun _ => none, fun _ => none⟩
        "out" "a.jpg" = [.writeImage ("out" ++ "/pose_" ++ "a.jpg") ⟨4, 3, [9, 9]⟩] :=
  ⟨rfl, rfl,
   c3_no_pose_writes_unmodified_copy _ _ "out" "a.jpg" _ rfl rfl rfl rfl⟩

/-- C2: with the input directory present but no candidate OpenPose path
existing on disk, the invoker's whole trace is the output-directory
creation followed by the remediation guidance, the exit status is 1, and
no subprocess is invoked (hence nothing can be written into the output
directory). -/
theorem c2_no_executable_exits_1 (env : OPEnv)
    (hin : env.inputDirExists = true)
    (hnone : ∀ p ∈ possible_paths, env.pathExists p = false) :
    (openpose_script env).1 = [.mkdirOut op_output_dir] ++ notFoundMsgs.map .printMsg ∧
      (openpose_script env).2 = 1 ∧
      (∀ cmd, OPEvent.runProc cmd ∉ (openpose_script env).1) := by
  have hfind : findBinary env = none := by
    unfold findBinary
    rw [List.find?_eq_none]
    intro p hp
    simp [hnone p hp]
  have hscript : openpose_script env =
      ([.mkdirOut op_output_dir] ++ notFoundMsgs.map .printMsg, 1) := by
    unfold openpose_script
    rw [hin]
    simp [hfind]
  refine ⟨by rw [hscript], by rw [hscript], ?_⟩
  intro cmd hmem
  rw [hscript] at hmem
  simp [notFoundMsgs] at hmem

theorem c2_witness :
    (⟨true, fun _ => false, fun _ => .completed 0 "" ""⟩ : OPEnv).inputDirExists = true ∧
      (openpose_script ⟨true, fun _ => false, fun _ => .completed 0 "" ""⟩).2 = 1 :=
  ⟨rfl, (c2_no_executable_exits_1 _ rfl (fun p _ => rfl)).2.1⟩

/-- C6: when the located OpenPose subprocess completes with a non-zero
status, the invoker catches the `CalledProcessError`, prints a
command-failure report that includes the captured stderr, never surfaces
an uncaught exception, and the process exits with status 0. -/
theorem c6_subprocess_failure_reported_exit_0 (env : OPEnv) (bin : String)
    (rc : Int) (out err : String)
    (hin : env.inputDirExists = true)
    (hbin : findBinary env = some bin)
    (hrun : env.runOutcome (opCommand bin) = .completed rc out err)
    (hrc : rc ≠ 0) :
    (openpose_script env).2 = 0 ∧
      OPEvent.printMsg "執行 OpenPose 時發生錯誤" ∈ (openpose_script env).1 ∧
      OPEvent.printMsg ("錯誤輸出: " ++ err) ∈ (openpose_script env).1 ∧
      (∀ exc, OPEvent.uncaught exc ∉ (openpose_script env).1) := by
  have hscript : openpose_script env =
      ([.mkdirOut op_output_dir,
        .printMsg ("使用的 OpenPose 路徑: " ++ bin),
        .printMsg "執行命令", .runProc (opCommand bin)] ++
       [.printMsg "執行 OpenPose 時發生錯誤",
        .printMsg ("錯誤輸出: " ++ err),
        .printMsg "請檢查：",
        .printMsg "1. OpenPose 是否正確安裝",
        .printMsg "2. 執行檔路徑是否正確",
        .printMsg "3. 是否有足夠的權限執行"], 0) := by
    unfold openpose_script
    rw [hin]
    simp [hbin, hrun, hrc]
  refine ⟨by rw [hscript], by rw [hscript]; simp, by rw [hscript]; simp, ?_⟩
  intro exc hmem
  rw [hscript] at hmem
  simp at hmem

theorem c6_witness :
    findBinary ⟨true, fun p => p = "/usr/local/bin/openpose.bin",
        fun _ => .completed 77 "" "boom"⟩ = some "/usr/local/bin/openpose.bin" ∧
      (openpose_script ⟨true, fun p => p = "/usr/local/bin/openpose.bin",
        fun _ => .completed 77 "" "boom"⟩).2 = 0 ∧
      OPEvent.printMsg ("錯誤輸出: " ++ "boom") ∈
        (openpose_script ⟨true, fun p => p = "/usr/local/bin/openpose.bin",
          fun _ => .completed 77 "" "boom"⟩).1 := by
  have h := c6_subprocess_failure_reported_exit_0
    ⟨true, fun p => p = "/usr/local/bin/openpose.bin", fun _ => .completed 77 "" "boom"⟩
    "/usr/local/bin/openpose.bin" 77 "" "boom" rfl (by decide) rfl (by decide)
  exact ⟨by decide, h.1, h.2.2.1⟩

/-- C10: before the estimator is constructed, `main()` attempts to load
(import) each required package and spawns `pip install` exactly for those
whose import fails; no install is spawned after construction begins. -/
theorem c10_auto_install_before_estimator (env : MainEnv)
    (hpip : ∀ p ∈ required_packages, env.pipFails p = false) :
    ∃ pre post,
      mainRun env = pre ++ MainEvent.constructEstimator :: post ∧
        (∀ p, MainEvent.pipInstall p ∈ pre ↔
          p ∈ required_packages ∧ env.importOk p = false) ∧
        (∀ p, MainEvent.pipInstall p ∉ post) := by
  have hm' : env.pipFails "mediapipe" = false := hpip _ (by simp [required_packages])
  have ht' : env.pipFails "tqdm" = false := hpip _ (by simp [required_packages])
  cases hm : env.importOk "mediapipe" <;> cases ht : env.importOk "tqdm"
  · refine ⟨[.logMsg ("安裝 " ++ "mediapipe" ++ "..."), .pipInstall "mediapipe",
      .logMsg ("安裝 " ++ "tqdm" ++ "..."), .pipInstall "tqdm",
      .logMsg "初始化姿態估計器..."], [.processDir, .logMsg "處理完成！"], ?_, ?_, ?_⟩
    · simp [mainRun, required_packages, installLoop, hm, ht, hm', ht']
    · intro p
      constructor
      · intro hp
        simp at hp
        rcases hp with rfl | rfl
        · exact ⟨by simp [required_packages], hm⟩
        · exact ⟨by simp [required_packages], ht⟩
      · rintro ⟨hp, hf⟩
        rcases (by simpa [required_packages] using hp : p = "mediapipe" ∨ p = "tqdm")
          with rfl | rfl <;> simp
    · intro p
      simp
  · refine ⟨[.logMsg ("安裝 " ++ "mediapipe" ++ "..."), .pipInstall "mediapipe",
      .logMsg "初始化姿態估計器..."], [.processDir, .logMsg "處理完成！"], ?_, ?_, ?_⟩
    · simp [mainRun, required_packages, installLoop, hm, ht, hm']
    · intro p
      constructor
      · intro hp
        simp at hp
        subst hp
        exact ⟨by simp [required_packages], hm⟩
      · rintro ⟨hp, hf⟩
        rcases (by simpa [required_packages] using hp : p = "mediapipe" ∨ p = "tqdm")
          with rfl | rfl
        · simp
        · rw [ht] at hf
          cases hf
    · intro p
      simp
  · refine ⟨[.logMsg ("安裝 " ++ "tqdm" ++ "..."), .pipInstall "tqdm",
      .logMsg "初始化姿態估計器..."], [.processDir, .logMsg "處理完成！"], ?_, ?_, ?_⟩
    · simp [mainRun, required_packages, installLoop, hm, ht, ht']
    · intro p
      constructor
      · intro hp
        simp at hp
        subst hp
        exact ⟨by simp [required_packages], ht⟩
      · rintro ⟨hp, hf⟩
        rcases (by simpa [required_packages] using hp : p = "mediapipe" ∨ p = "tqdm")
          with rfl | rfl
        · rw [hm] at hf
          cases hf
        · simp
    · intro p
      simp
  · refine ⟨[.logMsg "初始化姿態估計器..."], [.processDir, .logMsg "處理完成！"],
      ?_, ?_, ?_⟩
    · simp [mainRun, required_packages, installLoop, hm, ht]
    · intro p
      constructor
      · intro hp
        simp at hp
      · rintro ⟨hp, hf⟩
        rcases (by simpa [required_packages] using hp : p = "mediapipe" ∨ p = "tqdm")
          with rfl | rfl
        · rw [hm] at hf
          cases hf
        · rw [ht] at hf
          cases hf
    · intro p
      simp

theorem c10_witness :
    (∀ p ∈ required_packages,
      (⟨fun p => p = "mediapipe", fun _ => false⟩ : MainEnv).pipFails p = false) ∧
      ∃ pre post,
        mainRun ⟨fun p => p = "mediapipe", fun _ => false⟩ =
          pre ++ MainEvent.constructEstimator :: post ∧
          (∀ p, MainEvent.pipInstall p ∈ pre ↔
            p ∈ required_packages ∧
              (⟨fun p => p = "mediapipe", fun _ => false⟩ : MainEnv).importOk p = false) ∧
          (∀ p, MainEvent.pipInstall p ∉ post) :=
  ⟨fun _ _ => rfl,
   c10_auto_install_before_estimator ⟨fun p => p = "mediapipe", fun _ => false⟩
     (fun _ _ => rfl)⟩

/-- C5: every landmark dump starts with a header line carrying the source
image's pixel dimensions, a blank line and the `Landmarks:` caption,
followed by one four-line block per landmark (terminated by a blank
separator line) from which the landmark's rendered id and its four
formatted values parse back exactly; each formatted value carries
exactly four digit characters after its decimal point, and parsing a
formatted value recovers the half-even-rounded four-decimal value. -/
theorem c5_landmark_serialization_round_trip (d : LandmarksDict) :
    (save_landmarks_lines d).take 3 =
      ["Image size: " ++ sizeRepr d.image_size, "", "Landmarks:"] ∧
      (∃ a b c : String, "Image size: " ++ sizeRepr d.image_size =
        a ++ natToDec d.image_size.width ++ b ++ natToDec d.image_size.height ++ c) ∧
      (save_landmarks_lines d).drop 3 = d.landmarks.flatMap landmarkBlockLines ∧
      parseBlocks ((save_landmarks_lines d).drop 3) =
        some (d.landmarks.map (fun il => (natToDec il.1, format4 il.2.x,
          format4 il.2.y, format4 il.2.z, format4 il.2.visibility))) ∧
      (∀ q : ℚ, ∃ ip fr, (format4 q).data = ip ++ '.' :: fr ∧ fr.length = 4 ∧
        (∀ c ∈ fr, isDecDigit c = true) ∧ '.' ∉ ip) ∧
      (∀ q : ℚ, parseFix4 (format4 q) = some ((scaled4 q : ℚ) / 10000)) := by
  refine ⟨rfl, ?_, rfl, ?_, format4_four_frac_digits, parseFix4_format4⟩
  · refine ⟨"Image size: \x7b" ++ sglq ++ "width" ++ sglq ++ ": ",
      ", " ++ sglq ++ "height" ++ sglq ++ ": ", "\x7d", ?_⟩
    apply string_data_inj
    simp [sizeRepr, String.data_append]
  · have : (save_landmarks_lines d).drop 3 = d.landmarks.flatMap landmarkBlockLines := rfl
    rw [this, parseBlocks_flatMap]

/-- C9: the landmark filename is derived from the input stem only, so two
inputs that differ only in extension share one landmark file, and when
both are processed (in sorted order) with detected poses, the file ends
up holding the later image's data. -/
theorem c9_stem_collision_overwrite (env : MPEnv) (oracle : FileOracle)
    (idir od : String) (entries : List String) (f1 f2 : String)
    (img1 img2 : Image) (l1 l2 : List Landmark)
    (hdisc : discoverImages entries = [f1, f2])
    (hstem : pathStem f1 = pathStem f2)
    (hr1 : oracle.imread f1 = some img1) (hr2 : oracle.imread f2 = some img2)
    (hl1 : (env.poseProcess img1).pose_landmarks = some l1)
    (hl2 : (env.poseProcess img2).pose_landmarks = some l2)
    (hp1 : oracle.processRaise f1 = none) (hp2 : oracle.processRaise f2 = none)
    (hw1 : oracle.imwriteRaise f1 = none) (hw2 : oracle.imwriteRaise f2 = none)
    (hs1 : oracle.saveRaise f1 = none) (hs2 : oracle.saveRaise f2 = none) :
    landmarkPath od f1 = landmarkPath od f2 ∧
      fsLookup (runFS (process_directory env oracle idir od entries))
        (landmarkPath od f1) =
        some (.textData (save_landmarks_lines
          ⟨l2.enum, ⟨img2.width, img2.height⟩⟩)) := by
  have hpath : landmarkPath od f1 = landmarkPath od f2 := by
    unfold landmarkPath
    rw [hstem]
  refine ⟨hpath, ?_⟩
  have hd1 : (process_image env img1).2 =
      some (LandmarksDict.mk l1.enum (ImageSize.mk img1.width img1.height)) := by
    rw [process_image_snd, hl1]
    rfl
  have hd2 : (process_image env img2).2 =
      some (LandmarksDict.mk l2.enum (ImageSize.mk img2.width img2.height)) := by
    rw [process_image_snd, hl2]
    rfl
  have hpo1 : processOne env oracle od f1 =
      [.writeImage (posePath od f1) (process_image env img1).1,
       .writeText (landmarkPath od f1) (save_landmarks_lines
         ⟨l1.enum, ⟨img1.width, img1.height⟩⟩)] := by
    unfold processOne
    simp only [hr1, hp1, hw1, hd1, hs1]
  have hpo2 : processOne env oracle od f2 =
      [.writeImage (posePath od f2) (process_image env img2).1,
       .writeText (landmarkPath od f2) (save_landmarks_lines
         ⟨l2.enum, ⟨img2.width, img2.height⟩⟩)] := by
    unfold processOne
    simp only [hr2, hp2, hw2, hd2, hs2]
  have hrun : process_directory env oracle idir od entries =
      [.mkdirOut od, .logMsg "開始處理圖片"] ++
        (processOne env oracle od f1 ++ (processOne env oracle od f2 ++ [])) := by
    unfold process_directory
    simp [hdisc]
  rw [hrun, hpo1, hpo2, ← hpath]
  simp only [runFS, List.append_nil, List.cons_append, List.nil_append,
    List.foldl_cons, List.foldl_nil, applyEvent]
  rw [fsLookup_fsWrite]
  simp

/-- Fixtures used by concrete run witnesses. -/
def imgA : Image := ⟨4, 3, [1]⟩

def imgB : Image := ⟨5, 6, [2]⟩

def lmA : Landmark := ⟨0, 0, 0, 1⟩

def lmB : Landmark := ⟨mkRat 1 2, 0, 0, 1⟩

/-- Estimator stub that reports a different single landmark per image. -/
def envAB : MPEnv :=
  ⟨fun img => if img.width = 4 then ⟨some [lmA], none⟩ else ⟨some [lmB], none⟩,
   fun i _ => i, fun i _ => i⟩

/-- Oracle for a directory holding `a.jpg` and `a.png`, both decodable,
with no exceptions anywhere. -/
def oracleAB : FileOracle :=
  ⟨fun n => if n = "a.jpg" then some imgA else some imgB,
   fun _ => none, fun _ => none, fun _ => none⟩

theorem c9_witness :
    discoverImages ["a.jpg", "a.png"] = ["a.jpg", "a.png"] ∧
      pathStem "a.jpg" = pathStem "a.png" ∧
      (landmarkPath "out" "a.jpg" = landmarkPath "out" "a.png" ∧
        fsLookup (runFS (process_directory envAB oracleAB "in" "out"
            ["a.jpg", "a.png"])) (landmarkPath "out" "a.jpg") =
          some (.textData (save_landmarks_lines
            ⟨([lmB] : List Landmark).enum, ⟨imgB.width, imgB.height⟩⟩))) :=
  ⟨by decide, by decide,
   c9_stem_collision_overwrite envAB oracleAB "in" "out" ["a.jpg", "a.png"]
     "a.jpg" "a.png" imgA imgB [lmA] [lmB] (by decide) (by decide)
     rfl rfl rfl rfl rfl rfl rfl rfl rfl rfl⟩

/-- The loop body of a non-empty run, as one event list. -/
theorem process_directory_nonempty (env : MPEnv) (oracle : FileOracle)
    (idir od : String) (entries : List String)
    (h : discoverImages entries ≠ []) :
    process_directory env oracle idir od entries =
      [.mkdirOut od, .logMsg "開始處理圖片"] ++
        (discoverImages entries).flatMap (processOne env oracle od) := by
  unfold process_directory
  have : (discoverImages entries).isEmpty = false := by
    simpa [List.isEmpty_iff] using h
  simp [this]

/-- C1 (amended): any exception raised while processing an image is
caught and logged together with the filename; the iteration for every
discovered file takes place regardless of other files' failures; and a
landmarks_ file is only ever written after the same iteration's pose_
image — but a failure between the two writes can leave the pose_ image
without its landmarks_ file (see the counterexample). -/
theorem c1_exceptions_logged_loop_continues (env : MPEnv) (oracle : FileOracle)
    (idir od : String) (entries : List String) (f : String)
    (hf : f ∈ discoverImages entries) :
    (∀ m img, oracle.imread f = some img → oracle.processRaise f = some m →
      PEvent.logMsg (errorMsg f m) ∈ process_directory env oracle idir od entries) ∧
      (∀ m img, oracle.imread f = some img → oracle.processRaise f = none →
        oracle.imwriteRaise f = some m →
        PEvent.logMsg (errorMsg f m) ∈ process_directory env oracle idir od entries) ∧
      (∀ m, oracle.processRaise f = none → oracle.imwriteRaise f = none →
        detectionSucceeds env oracle f = true → oracle.saveRaise f = some m →
        PEvent.logMsg (errorMsg f m) ∈ process_directory env oracle idir od entries) ∧
      (∀ e ∈ processOne env oracle od f,
        e ∈ process_directory env oracle idir od entries) ∧
      (∀ p t, PEvent.writeText p t ∈ processOne env oracle od f →
        ∃ img, PEvent.writeImage (posePath od f) img ∈ processOne env oracle od f) := by
  have hne : discoverImages entries ≠ [] := List.ne_nil_of_mem hf
  have hsub : ∀ e ∈ processOne env oracle od f,
      e ∈ process_directory env oracle idir od entries := by
    intro e he
    rw [process_directory_nonempty env oracle idir od entries hne]
    exact List.mem_append_right _ (List.mem_flatMap.mpr ⟨f, hf, he⟩)
  refine ⟨?_, ?_, ?_, hsub, fun p t ht => processOne_text_implies_image _ _ _ _ _ _ ht⟩
  · intro m img hread hm
    apply hsub
    unfold processOne
    simp [hread, hm]
  · intro m img hread hp hm
    apply hsub
    unfold processOne
    simp [hread, hp, hm]
  · intro m hp hw hdet hs
    unfold detectionSucceeds at hdet
    rcases hread : oracle.imread f with _ | img
    · rw [hread] at hdet
      cases hdet
    · rw [hread] at hdet
      obtain ⟨lms, hl⟩ := Option.isSome_iff_exists.mp hdet
      have hd : (process_image env img).2 =
          some (LandmarksDict.mk lms.enum (ImageSize.mk img.width img.height)) := by
        rw [process_image_snd, hl]
        rfl
      apply hsub
      unfold processOne
      simp [hread, hp, hw, hd, hs]

/-- Oracle in which every image decodes but `save_landmarks` raises. -/
def oracleSaveFail : FileOracle :=
  ⟨fun _ => some imgA, fun _ => none, fun _ => none, fun _ => some "disk full"⟩

/-- Estimator stub that always detects one landmark. -/
def envDetect : MPEnv :=
  ⟨fun _ => ⟨some [lmA], none⟩, fun i _ => i, fun i _ => i⟩

/-- C1 counterexample: on a one-file directory whose landmark save
raises, the error is logged for the file, yet the run leaves the pose_
image written with no landmarks_ file — refuting the claim that for a
failed image either both artifacts are written or neither. -/
theorem c1_counterexample :
    PEvent.logMsg (errorMsg "a.jpg" "disk full") ∈
      process_directory envDetect oracleSaveFail "in" "out" ["a.jpg"] ∧
      (fsLookup (runFS (process_directory envDetect oracleSaveFail "in" "out"
        ["a.jpg"])) (posePath "out" "a.jpg")).isSome = true ∧
      fsLookup (runFS (process_directory envDetect oracleSaveFail "in" "out"
        ["a.jpg"])) (landmarkPath "out" "a.jpg") = none := by
  decide

theorem c1_witness :
    "a.jpg" ∈ discoverImages ["a.jpg"] ∧
      ∀ e ∈ processOne envDetect oracleSaveFail "out" "a.jpg",
        e ∈ process_directory envDetect oracleSaveFail "in" "out" ["a.jpg"] :=
  ⟨by decide,
   (c1_exceptions_logged_loop_continues envDetect oracleSaveFail "in" "out"
     ["a.jpg"] "a.jpg" (by decide)).2.2.2.1⟩

/-- C4 (amended): a run produces at most one rendered output and at most
one landmark file per recognized image; and when all recognized
filenames have pairwise distinct stems, for every image whose own
processing raises no exception the landmarks_ file for that image exists
in the output directory iff pose detection succeeded on it.  (With
colliding stems the iff fails — see the counterexample.) -/
theorem c4_output_counts_and_landmark_iff (env : MPEnv) (oracle : FileOracle)
    (idir od : String) (entries : List String) :
    fsImageCount (runFS (process_directory env oracle idir od entries)) ≤
      (discoverImages entries).length ∧
      fsTextCount (runFS (process_directory env oracle idir od entries)) ≤
        (discoverImages entries).length ∧
      ((∀ f ∈ discoverImages entries, ∀ g ∈ discoverImages entries,
          pathStem f = pathStem g → f = g) →
        ∀ f ∈ discoverImages entries,
          oracle.processRaise f = none → oracle.imwriteRaise f = none →
          oracle.saveRaise f = none →
          ((fsLookup (runFS (process_directory env oracle idir od entries))
            (landmarkPath od f)).isSome = true ↔
            detectionSucceeds env oracle f = true)) := by
  have hcnt := counts_foldl (process_directory env oracle idir od entries) []
  have himg0 : fsImageCount ([] : FS) = 0 := rfl
  have htxt0 : fsTextCount ([] : FS) = 0 := rfl
  have hfilter :
      ((process_directory env oracle idir od entries).filter isImageWrite).length ≤
          (discoverImages entries).length ∧
        ((process_directory env oracle idir od entries).filter isTextWrite).length ≤
          (discoverImages entries).length := by
    by_cases hne : discoverImages entries = []
    · have : process_directory env oracle idir od entries =
          [.mkdirOut od, .logMsg (emptyWarning idir)] := by
        unfold process_directory
        simp [hne]
      rw [this]
      simp [isImageWrite, isTextWrite]
    · rw [process_directory_nonempty env oracle idir od entries hne]
      rw [List.filter_append, List.filter_append, List.length_append,
        List.length_append]
      have h1 : (([PEvent.mkdirOut od, .logMsg "開始處理圖片"] :
          List PEvent).filter isImageWrite).length = 0 := rfl
      have h2 : (([PEvent.mkdirOut od, .logMsg "開始處理圖片"] :
          List PEvent).filter isTextWrite).length = 0 := rfl
      rw [h1, h2]
      constructor
      · simpa using flatMap_filter_le _ _ _
          (fun g _ => (processOne_write_counts env oracle od g).1)
      · simpa using flatMap_filter_le _ _ _
          (fun g _ => (processOne_write_counts env oracle od g).2)
  refine ⟨by rw [runFS] at *; omega, by rw [runFS] at *; omega, ?_⟩
  intro hstem f hf hp hw hs
  have hne : discoverImages entries ≠ [] := List.ne_nil_of_mem hf
  rw [runFS, fsLookup_foldl_isSome]
  have h0 : (fsLookup ([] : FS) (landmarkPath od f)).isSome = false := rfl
  rw [h0, Bool.or_false]
  rw [process_directory_nonempty env oracle idir od entries hne, List.any_append]
  have hpre : (([PEvent.mkdirOut od, .logMsg "開始處理圖片"] :
      List PEvent).any (writesTo (landmarkPath od f))) = false := rfl
  rw [hpre, Bool.false_or, List.any_flatMap, List.any_eq_true]
  constructor
  · rintro ⟨g, hg, hany⟩
    rcases (processOne_any_writesTo env oracle od g (landmarkPath od f)).mp hany with
      ⟨_, hpp⟩ | ⟨hwl, hlp⟩
    · exact absurd hpp (posePath_ne_landmarkPath od g f)
    · have hgf : g = f := hstem g hg f hf (landmarkPath_inj_stem hlp)
      subst hgf
      unfold writesLandmarkFile at hwl
      simp only [Bool.and_eq_true] at hwl
      exact hwl.1.2
  · intro hdet
    refine ⟨f, hf, (processOne_any_writesTo env oracle od f
      (landmarkPath od f)).mpr (Or.inr ⟨?_, rfl⟩)⟩
    have himg : (oracle.imread f).isSome = true := by
      unfold detectionSucceeds at hdet
      rcases h : oracle.imread f with _ | img
      · rw [h] at hdet
        cases hdet
      · simp
    unfold writesLandmarkFile writesPose
    simp [himg, hp, hw, hs, hdet]

/-- Estimator stub detecting a pose only on the 5-pixel-wide image. -/
def envOnlyB : MPEnv :=
  ⟨fun img => if img.width = 4 then ⟨none, none⟩ else ⟨some [lmB], none⟩,
   fun i _ => i, fun i _ => i⟩

/-- C4 counterexample: with inputs `a.jpg` (no pose detected) and `a.png`
(pose detected) the landmark file named for `a.jpg` exists even though
detection failed on `a.jpg` — the claimed iff is false under stem
collision. -/
theorem c4_counterexample :
    detectionSucceeds envOnlyB oracleAB "a.jpg" = false ∧
      (fsLookup (runFS (process_directory envOnlyB oracleAB "in" "out"
        ["a.jpg", "a.png"])) (landmarkPath "out" "a.jpg")).isSome = true := by
  decide

theorem c4_witness :
    (∀ f ∈ discoverImages ["a.jpg", "b.png"],
      ∀ g ∈ discoverImages ["a.jpg", "b.png"], pathStem f = pathStem g → f = g) ∧
      ((fsLookup (runFS (process_directory envAB oracleAB "in" "out"
          ["a.jpg", "b.png"])) (landmarkPath "out" "a.jpg")).isSome = true ↔
        detectionSucceeds envAB oracleAB "a.jpg" = true) :=
  ⟨by decide,
   (c4_output_counts_and_landmark_iff envAB oracleAB "in" "out"
     ["a.jpg", "b.png"]).2.2 (by decide) "a.jpg" (by decide) rfl rfl rfl⟩
